import Mathlib

/-!
Shallow embedding of the MarkdownViewer HP Prime application
(ppl_guard.py, main.py, browser.py) together with theorems settling
the specification claims about it.

Conventions used throughout:
* The firmware evaluator (hpprime.eval) is modelled by its observable
  effects: a read outcome is an `Option Int` (`none` models a raised
  exception, swallowed by the bare `except:` clauses), and each function
  returns the list of expression strings it passes to the evaluator,
  in order.  Writes that raise are swallowed, so the evaluated-string
  trace is unaffected by write failures.
* Python strings are Lean `String`s, except in `_file_label` where the
  index arithmetic of `str.find`/slicing is modelled on `List Char`.
* Python file I/O is modelled with `Except`: the outcome of the
  underlying read/write is a parameter and a raised exception that
  escapes the function is an `Except.error` result.
-/

namespace ppl_guard

/-- Module state of ppl_guard.py: the global `_saved_separator`,
`None` until `init` has run. -/
structure GuardState where
  savedSeparator : Option Int
deriving Repr, DecidableEq

/-- Embedding of `ppl_guard.init`: `_saved_separator = int(heval('HSeparator'))`
with `except: _saved_separator = 0`, then `heval('HSeparator:=0')` (failure
swallowed).  Returns the new state and the trace of evaluated strings. -/
def init (readResult : Option Int) : GuardState × List String :=
  ({ savedSeparator := some (readResult.getD 0) },
   ["HSeparator", "HSeparator:=0"])

/-- Embedding of `ppl_guard.cleanup`: when `_saved_separator is not None`,
evaluate `'HSeparator:=%d' % _saved_separator` (failure swallowed); the
saved value is not cleared by cleanup. -/
def cleanup (s : GuardState) : GuardState × List String :=
  match s.savedSeparator with
  | some v => (s, ["HSeparator:=" ++ toString v])
  | none => (s, [])

/-- Instance state of the `PPLSafe` context manager: `self._prev`. -/
structure PPLSafe where
  prev : Int
deriving Repr, DecidableEq

/-- Embedding of `PPLSafe.__enter__`: `self._prev = int(heval('HSeparator'))`
with `except: self._prev = 0`, then `heval('HSeparator:=0')` (swallowed). -/
def PPLSafe.enter (readResult : Option Int) : PPLSafe × List String :=
  ({ prev := readResult.getD 0 }, ["HSeparator", "HSeparator:=0"])

/-- Embedding of `PPLSafe.__exit__`: evaluate `'HSeparator:=%d' % self._prev`
(failure swallowed).  Returns the trace of evaluated strings. -/
def PPLSafe.exitTrace (c : PPLSafe) : List String :=
  ["HSeparator:=" ++ toString c.prev]

end ppl_guard

namespace main

/-- Navigation state of the viewer loop in main.py.
Modelled from the spec: the external `MarkdownViewer` collaborator is
reduced to the one observable the navigation code uses, its scroll
position (`get_scroll_position` reads it, `set_scroll_position` sets it;
a freshly constructed viewer is at position 0).  The back and forward
stacks hold (filename, scroll position) pairs; the head of the Lean
list is the top of the Python stack (`append`/`pop` at the end). -/
structure NavState where
  filename : String
  scroll : Int
  nav_stack : List (String × Int)
  fwd_stack : List (String × Int)
deriving Repr, DecidableEq

/-- Embedding of `navigate_link` from main.py.  `saved_s` is the value
returned by the external `file_prefs.get_scroll_pos(filename)` call for
the target file.  Returns the Python return value and the new state. -/
def navigate_link (s : NavState) (url : String) (saved_s : Int) :
    Bool × NavState :=
  if !url.endsWith ".md" then (false, s)
  else
    (true,
     { filename := url,
       scroll := if saved_s > 0 then saved_s else 0,
       nav_stack := (s.filename, s.scroll) :: s.nav_stack,
       fwd_stack := [] })

/-- Embedding of `navigate_back` from main.py. -/
def navigate_back (s : NavState) : Bool × NavState :=
  match s.nav_stack with
  | [] => (false, s)
  | (prev_file, prev_scroll) :: rest =>
    (true,
     { filename := prev_file,
       scroll := prev_scroll,
       nav_stack := rest,
       fwd_stack := (s.filename, s.scroll) :: s.fwd_stack })

/-- Embedding of `navigate_forward` from main.py. -/
def navigate_forward (s : NavState) : Bool × NavState :=
  match s.fwd_stack with
  | [] => (false, s)
  | (next_file, next_scroll) :: rest =>
    (true,
     { filename := next_file,
       scroll := next_scroll,
       nav_stack := (s.filename, s.scroll) :: s.nav_stack,
       fwd_stack := rest })

end main

/-- C1: when `ppl_guard.init` observes HSeparator value `v` (the read
succeeds and returns `v`), a subsequent `cleanup` evaluates exactly the
string `HSeparator:=v` — the value observed at init, not the forced
intervening 0 — and a second `cleanup` evaluates the same string again,
so the restore is idempotent. -/
theorem init_cleanup_restores_observed_value (v : Int) :
    (ppl_guard.cleanup (ppl_guard.init (some v)).1).2
        = ["HSeparator:=" ++ toString v] ∧
    (ppl_guard.cleanup
        (ppl_guard.cleanup (ppl_guard.init (some v)).1).1).2
        = ["HSeparator:=" ++ toString v] := by
  constructor <;> rfl

/-- C9: for every evaluator read outcome, entering and exiting a
`PPLSafe` context evaluates exactly the same sequence of expression
strings as `ppl_guard.init` followed by `ppl_guard.cleanup` (read
HSeparator, force 0, write back the saved value), and the value saved on
a failed read is 0 in both, so the two forms are equivalent. -/
theorem pplsafe_equiv_init_cleanup (readResult : Option Int) :
    (ppl_guard.PPLSafe.enter readResult).2
        ++ ppl_guard.PPLSafe.exitTrace (ppl_guard.PPLSafe.enter readResult).1
      = (ppl_guard.init readResult).2
        ++ (ppl_guard.cleanup (ppl_guard.init readResult).1).2 ∧
    (ppl_guard.PPLSafe.enter readResult).1.prev
      = ((ppl_guard.init readResult).1.savedSeparator).getD 0 := by
  cases readResult <;> exact ⟨rfl, rfl⟩

/-- C2: for every navigation state, a URL ending in `.md` makes
`navigate_link` return True, push the pair (current filename, current
scroll position) onto the back stack and leave the forward stack empty;
a URL not ending in `.md` makes it return False and leave the state —
in particular both stacks — unchanged. -/
theorem navigate_link_spec (s : main.NavState) (url : String)
    (saved_s : Int) :
    main.navigate_link s url saved_s =
      if url.endsWith ".md" then
        (true,
         { filename := url,
           scroll := if saved_s > 0 then saved_s else 0,
           nav_stack := (s.filename, s.scroll) :: s.nav_stack,
           fwd_stack := [] })
      else (false, s) := by
  unfold main.navigate_link
  cases h : url.endsWith ".md" <;> simp [h]

/-- C3: with a non-empty back stack whose top is (pf, ps),
`navigate_back` returns True, pushes the current (filename, scroll
position) onto the forward stack and pops (pf, ps) into the current
position; `navigate_forward` immediately afterwards returns True and
restores exactly the state held before, both stacks included.  On an
empty back stack `navigate_back` returns False and changes nothing, and
likewise `navigate_forward` on an empty forward stack. -/
theorem navigate_back_forward_symmetry (s : main.NavState) (pf : String)
    (ps : Int) (rest : List (String × Int))
    (h : s.nav_stack = (pf, ps) :: rest) :
    main.navigate_back s =
      (true,
       { filename := pf, scroll := ps, nav_stack := rest,
         fwd_stack := (s.filename, s.scroll) :: s.fwd_stack }) ∧
    main.navigate_forward (main.navigate_back s).2 = (true, s) ∧
    (∀ t : main.NavState, t.nav_stack = [] →
        main.navigate_back t = (false, t)) ∧
    (∀ t : main.NavState, t.fwd_stack = [] →
        main.navigate_forward t = (false, t)) := by
  obtain ⟨f0, p0, ns, fs⟩ := s
  dsimp only at h
  subst h
  refine ⟨rfl, rfl, ?_, ?_⟩
  · intro t ht
    unfold main.navigate_back
    rw [ht]
  · intro t ht
    unfold main.navigate_forward
    rw [ht]

/-- Witness for C3 at a concrete state. -/
theorem navigate_back_forward_symmetry_witness :
    ({ filename := "a.md", scroll := 7,
       nav_stack := [("b.md", 3)], fwd_stack := [] } :
        main.NavState).nav_stack = [("b.md", 3)] ∧
    (main.navigate_back
        { filename := "a.md", scroll := 7,
          nav_stack := [("b.md", 3)], fwd_stack := [] } =
      (true,
       { filename := "b.md", scroll := 3, nav_stack := [],
         fwd_stack := [("a.md", 7)] }) ∧
     main.navigate_forward (main.navigate_back
        { filename := "a.md", scroll := 7,
          nav_stack := [("b.md", 3)], fwd_stack := [] }).2 =
      (true,
       { filename := "a.md", scroll := 7,
         nav_stack := [("b.md", 3)], fwd_stack := [] }) ∧
     (∀ t : main.NavState, t.nav_stack = [] →
         main.navigate_back t = (false, t)) ∧
     (∀ t : main.NavState, t.fwd_stack = [] →
         main.navigate_forward t = (false, t))) :=
  ⟨rfl, navigate_back_forward_symmetry _ "b.md" 3 [] rfl⟩

namespace browser

/-- Embedding of `_format_size` from browser.py: Python `//` and `%` on
non-negative integers are `Nat` division and modulus, `str` on a
non-negative integer is `toString`. -/
def _format_size (size : Nat) : String :=
  let kb100 := (size * 100 + 512) / 1024
  let whole := kb100 / 100
  let frac := kb100 % 100
  if frac < 10 then toString whole ++ ".0" ++ toString frac ++ " KB"
  else toString whole ++ "." ++ toString frac ++ " KB"

/-- Embedding of Python `str.find` on a single character, on the
character-list view of the string: index of the first occurrence, or -1
when the character does not occur. -/
def str_find (s : List Char) (c : Char) : Int :=
  match s with
  | [] => -1
  | x :: xs =>
    if x = c then 0
    else if str_find xs c < 0 then -1 else str_find xs c + 1

/-- Embedding of `_file_label` from browser.py, on the character-list
view of the filename: find the first underscore; when its index is
strictly positive and strictly below length - 1, splice a slash in its
place, otherwise return the name unchanged. -/
def _file_label (fname : List Char) : List Char :=
  let idx := str_find fname '_'
  if 0 < idx ∧ idx < (fname.length : Int) - 1 then
    fname.take idx.toNat ++ '/' :: fname.drop (idx.toNat + 1)
  else fname

theorem str_find_of_not_mem {s : List Char} {c : Char} (h : c ∉ s) :
    str_find s c = -1 := by
  induction s with
  | nil => rfl
  | cons x xs ih =>
    rw [str_find]
    rw [List.mem_cons, not_or] at h
    rw [if_neg (fun hxc => h.1 hxc.symm), ih h.2]
    rfl

theorem str_find_append {a : List Char} {c : Char} (b : List Char)
    (h : c ∉ a) : str_find (a ++ c :: b) c = (a.length : Int) := by
  induction a with
  | nil => simp [str_find]
  | cons x xs ih =>
    rw [List.mem_cons, not_or] at h
    rw [List.cons_append, str_find,
        if_neg (fun hxc => h.1 hxc.symm), ih h.2]
    have : ¬ ((xs.length : Int) < 0) := by omega
    rw [if_neg this]
    simp

end browser

/-- C5: for every non-negative byte count n, `_format_size` renders the
integer k obtained from n*100/1024 by rounding half-up to whole
hundredths (characterised by 1024*k ≤ 100*n + 512 < 1024*(k+1)) as
whole KB and a two-digit fraction, the fraction zero-padded exactly
when it is below 10; in particular 1000 bytes render as "0.98 KB". -/
theorem format_size_spec (n : Nat) :
    (∃ k w f, 1024 * k ≤ n * 100 + 512 ∧ n * 100 + 512 < 1024 * (k + 1) ∧
      k = 100 * w + f ∧ f < 100 ∧
      browser._format_size n =
        toString w ++ (if f < 10 then ".0" else ".") ++ toString f
          ++ " KB") ∧
    browser._format_size 1000 = "0.98 KB" := by
  constructor
  · refine ⟨(n * 100 + 512) / 1024, (n * 100 + 512) / 1024 / 100,
        (n * 100 + 512) / 1024 % 100, ?_, ?_, ?_, ?_, ?_⟩
    · have h1 := Nat.div_add_mod (n * 100 + 512) 1024
      have h2 := Nat.mod_lt (n * 100 + 512) (show 0 < 1024 by omega)
      omega
    · have h1 := Nat.div_add_mod (n * 100 + 512) 1024
      have h2 := Nat.mod_lt (n * 100 + 512) (show 0 < 1024 by omega)
      omega
    · exact (Nat.div_add_mod _ 100).symm
    · exact Nat.mod_lt _ (by omega)
    · unfold browser._format_size
      by_cases hf : (n * 100 + 512) / 1024 % 100 < 10 <;>
        simp [hf]
  · rfl

/-- C6: writing a filename with a first underscore as a ++ underscore
++ b (so the underscore does not occur in a), `_file_label` replaces
that underscore with a slash exactly when both halves a and b are
non-empty (index above 0 and below length - 1) and is the identity
otherwise; underscores inside b are untouched, and a name with no
underscore at all is returned unchanged. -/
theorem file_label_spec (a b : List Char) (h : '_' ∉ a) :
    browser._file_label (a ++ '_' :: b) =
      (if a = [] ∨ b = [] then a ++ '_' :: b else a ++ '/' :: b) ∧
    browser._file_label a = a := by
  constructor
  · unfold browser._file_label
    rw [browser.str_find_append b h]
    by_cases ha : a = []
    · subst ha
      simp
    · by_cases hb : b = []
      · subst hb
        have hc : ¬ (0 < (a.length : Int) ∧
            (a.length : Int) < ((a ++ ['_']).length : Int) - 1) := by
          simp only [List.length_append, List.length_cons,
            List.length_nil]
          omega
        rw [if_neg hc, if_pos (Or.inr rfl)]
      · have hal : 0 < a.length := List.length_pos.mpr ha
        have hbl : 0 < b.length := List.length_pos.mpr hb
        have hc : 0 < (a.length : Int) ∧
            (a.length : Int) < ((a ++ '_' :: b).length : Int) - 1 := by
          simp only [List.length_append, List.length_cons]
          omega
        rw [if_pos hc, if_neg (by simp [ha, hb])]
        have ht : (a ++ '_' :: b).take ((a.length : Int)).toNat = a := by
          rw [Int.toNat_natCast, List.take_left]
        have hd : (a ++ '_' :: b).drop (((a.length : Int)).toNat + 1)
            = b := by
          rw [Int.toNat_natCast,
            show a ++ '_' :: b = (a ++ ['_']) ++ b by simp,
            show a.length + 1 = (a ++ ['_']).length by simp,
            List.drop_left]
        rw [ht, hd]
  · unfold browser._file_label
    rw [browser.str_find_of_not_mem h]
    norm_num

/-- Witness for C6 at a concrete filename: p_q_r splits into p/q_r,
leaving the second underscore alone. -/
theorem file_label_spec_witness :
    ('_' ∉ ['p']) ∧
    (browser._file_label (['p'] ++ '_' :: ['q', '_', 'r']) =
      (if (['p'] : List Char) = [] ∨ (['q', '_', 'r'] : List Char) = []
       then ['p'] ++ '_' :: ['q', '_', 'r']
       else ['p'] ++ '/' :: ['q', '_', 'r']) ∧
     browser._file_label ['p'] = ['p']) :=
  ⟨by decide, file_label_spec ['p'] ['q', '_', 'r'] (by decide)⟩

namespace browser

/-- A file-list entry, the Python tuple (filename, size, is_fav) built
in `_build_file_list`. -/
abbrev FileItem := String × Nat × Bool

/-- Embedding of Python `str.lower()`: lower-case each character.
Defined on the character list so that it evaluates by `rfl` (the
filenames involved are ASCII, where `Char.toLower` agrees with
Python). -/
def pyLower (s : String) : String := ⟨s.data.map Char.toLower⟩

/-- Python comparison of the key tuples (bool, str) used by the sort
lambdas in `_build_file_list`: lexicographic, with False below True and
strings compared by code points. -/
def pyPairLe (p q : Bool × String) : Prop :=
  (p.1 = false ∧ q.1 = true) ∨ (p.1 = q.1 ∧ p.2 ≤ q.2)

instance : DecidableRel pyPairLe := fun p q => by
  unfold pyPairLe
  infer_instance

/-- Key comparison of `lambda x: (not x[2], x[0].lower())`. -/
def favLeAsc (x y : FileItem) : Prop :=
  pyPairLe (!x.2.2, pyLower x.1) (!y.2.2, pyLower y.1)

/-- Key comparison of `lambda x: (x[2], x[0].lower())`. -/
def favLeDesc (x y : FileItem) : Prop :=
  pyPairLe (x.2.2, pyLower x.1) (y.2.2, pyLower y.1)

/-- Key comparison of `lambda x: x[1]` with `reverse=not asc`: a
reversed stable Python sort is a stable sort under the flipped
comparison. -/
def sizeLe (asc : Bool) (x y : FileItem) : Prop :=
  match asc with
  | true => x.2.1 ≤ y.2.1
  | false => y.2.1 ≤ x.2.1

/-- Key comparison of `lambda x: x[0].lower()` with `reverse=not asc`. -/
def nameLe (asc : Bool) (x y : FileItem) : Prop :=
  match asc with
  | true => pyLower x.1 ≤ pyLower y.1
  | false => pyLower y.1 ≤ pyLower x.1

instance : DecidableRel favLeAsc := fun x y => by
  unfold favLeAsc
  infer_instance

instance : DecidableRel favLeDesc := fun x y => by
  unfold favLeDesc
  infer_instance

instance (asc : Bool) : DecidableRel (sizeLe asc) := fun x y => by
  cases asc <;> unfold sizeLe <;> dsimp only <;> infer_instance

instance (asc : Bool) : DecidableRel (nameLe asc) := fun x y => by
  cases asc <;> unfold nameLe <;> dsimp only <;> infer_instance

/-- The items list built by the loop at the top of `_build_file_list`:
one tuple (f, sizes.get(f, 0), f in favs) per raw file, in raw order. -/
def build_items (raw_files favs : List String)
    (sizes : List (String × Nat)) : List FileItem :=
  raw_files.map fun f => (f, ((sizes.lookup f).getD 0, favs.contains f))

/-- Embedding of `_build_file_list` from browser.py.  The external
reads `get_files(ext)`, `file_prefs.get_favorites()` and
`file_prefs.get_sort()` are the parameters `raw_files`, `favs` and
(col, asc); `sizes` is the size dict.  Python's `list.sort` is stable,
so it is embedded as Mathlib's stable insertion sort under the key
comparison of each branch; `reverse=True` (documented as comparisons
reversed, equal elements keeping their order) is the flipped
comparison. -/
def _build_file_list (raw_files favs : List String) (col : String)
    (asc : Bool) (sizes : List (String × Nat)) : List FileItem :=
  let items := build_items raw_files favs sizes
  if col = "fav" then
    if asc then List.insertionSort favLeAsc items
    else List.insertionSort favLeDesc items
  else if col = "size" then
    List.insertionSort (sizeLe asc) items
  else
    List.insertionSort (nameLe asc) items

/-- The ordering `_build_file_list` sorts by, per column and
direction. -/
def sortRel (col : String) (asc : Bool) : FileItem → FileItem → Prop :=
  if col = "fav" then (if asc then favLeAsc else favLeDesc)
  else if col = "size" then sizeLe asc
  else nameLe asc

theorem pyPairLe_total (p q : Bool × String) :
    pyPairLe p q ∨ pyPairLe q p := by
  obtain ⟨a, s⟩ := p
  obtain ⟨b, t⟩ := q
  unfold pyPairLe
  dsimp only
  cases a <;> cases b
  · rcases le_total s t with h | h
    · exact Or.inl (Or.inr ⟨rfl, h⟩)
    · exact Or.inr (Or.inr ⟨rfl, h⟩)
  · exact Or.inl (Or.inl ⟨rfl, rfl⟩)
  · exact Or.inr (Or.inl ⟨rfl, rfl⟩)
  · rcases le_total s t with h | h
    · exact Or.inl (Or.inr ⟨rfl, h⟩)
    · exact Or.inr (Or.inr ⟨rfl, h⟩)

theorem pyPairLe_trans (p q r : Bool × String) (h1 : pyPairLe p q)
    (h2 : pyPairLe q r) : pyPairLe p r := by
  obtain ⟨a, s⟩ := p
  obtain ⟨b, t⟩ := q
  obtain ⟨c, u⟩ := r
  unfold pyPairLe at h1 h2 ⊢
  dsimp only at h1 h2 ⊢
  rcases h1 with ⟨ha, hb⟩ | ⟨hab, hst⟩
  · rcases h2 with ⟨hb2, hc⟩ | ⟨hbc, htu⟩
    · simp [hb] at hb2
    · exact Or.inl ⟨ha, hbc ▸ hb⟩
  · rcases h2 with ⟨hb2, hc⟩ | ⟨hbc, htu⟩
    · exact Or.inl ⟨hab.trans hb2, hc⟩
    · exact Or.inr ⟨hab.trans hbc, hst.trans htu⟩

instance : IsTotal FileItem favLeAsc :=
  ⟨fun _ _ => pyPairLe_total _ _⟩

instance : IsTrans FileItem favLeAsc :=
  ⟨fun _ _ _ => pyPairLe_trans _ _ _⟩

instance : IsTotal FileItem favLeDesc :=
  ⟨fun _ _ => pyPairLe_total _ _⟩

instance : IsTrans FileItem favLeDesc :=
  ⟨fun _ _ _ => pyPairLe_trans _ _ _⟩

instance (asc : Bool) : IsTotal FileItem (sizeLe asc) :=
  ⟨fun x y => by
    cases asc <;> unfold sizeLe <;> dsimp only <;> omega⟩

instance (asc : Bool) : IsTrans FileItem (sizeLe asc) :=
  ⟨fun x y z h1 h2 => by
    cases asc <;> unfold sizeLe at h1 h2 ⊢ <;> dsimp only at h1 h2 ⊢ <;>
      omega⟩

instance (asc : Bool) : IsTotal FileItem (nameLe asc) :=
  ⟨fun x y => by
    cases asc <;> unfold nameLe <;> dsimp only <;> exact le_total _ _⟩

instance (asc : Bool) : IsTrans FileItem (nameLe asc) :=
  ⟨fun x y z h1 h2 => by
    cases asc <;> unfold nameLe at h1 h2 ⊢ <;> dsimp only at h1 h2 ⊢
    · exact le_trans h2 h1
    · exact le_trans h1 h2⟩

end browser

/-- C4 (amended): for every input file list and sort setting,
`_build_file_list` returns a permutation of the built items that is
sorted by the selected column in the selected direction, and the sort
is stable: entries equal under the sort key keep their input order.
For the fav column the sort key itself ends in the case-insensitive
filename, so fav ties are ordered by case-insensitive name; for the
size and name columns ties are not re-ordered by filename. -/
theorem build_file_list_sorted_stable (raw_files favs : List String)
    (col : String) (asc : Bool) (sizes : List (String × Nat)) :
    List.Perm (browser._build_file_list raw_files favs col asc sizes)
      (browser.build_items raw_files favs sizes) ∧
    List.Sorted (browser.sortRel col asc)
      (browser._build_file_list raw_files favs col asc sizes) ∧
    (∀ x y : browser.FileItem, browser.sortRel col asc x y →
      List.Sublist [x, y] (browser.build_items raw_files favs sizes) →
      List.Sublist [x, y]
        (browser._build_file_list raw_files favs col asc sizes)) := by
  unfold browser._build_file_list browser.sortRel
  by_cases h1 : col = "fav"
  · subst h1
    cases asc
    · simp only [eq_self_iff_true, if_true, if_neg (Bool.false_ne_true)]
      exact ⟨List.perm_insertionSort _ _, List.sorted_insertionSort _ _,
        fun x y hxy hsub => List.pair_sublist_insertionSort hxy hsub⟩
    · simp only [eq_self_iff_true, if_true]
      exact ⟨List.perm_insertionSort _ _, List.sorted_insertionSort _ _,
        fun x y hxy hsub => List.pair_sublist_insertionSort hxy hsub⟩
  · by_cases h2 : col = "size"
    · subst h2
      simp only [if_neg h1, eq_self_iff_true, if_true]
      exact ⟨List.perm_insertionSort _ _, List.sorted_insertionSort _ _,
        fun x y hxy hsub => List.pair_sublist_insertionSort hxy hsub⟩
    · simp only [if_neg h1, if_neg h2]
      exact ⟨List.perm_insertionSort _ _, List.sorted_insertionSort _ _,
        fun x y hxy hsub => List.pair_sublist_insertionSort hxy hsub⟩

/-- Witness for C4 (amended) at a concrete input. -/
theorem build_file_list_sorted_stable_witness :
    List.Perm
      (browser._build_file_list ["b.md", "A.md"] [] "name" true
        [("b.md", 5), ("A.md", 7)])
      (browser.build_items ["b.md", "A.md"] []
        [("b.md", 5), ("A.md", 7)]) ∧
    List.Sorted (browser.sortRel "name" true)
      (browser._build_file_list ["b.md", "A.md"] [] "name" true
        [("b.md", 5), ("A.md", 7)]) ∧
    (∀ x y : browser.FileItem, browser.sortRel "name" true x y →
      List.Sublist [x, y] (browser.build_items ["b.md", "A.md"] []
        [("b.md", 5), ("A.md", 7)]) →
      List.Sublist [x, y] (browser._build_file_list ["b.md", "A.md"] []
        "name" true [("b.md", 5), ("A.md", 7)])) :=
  build_file_list_sorted_stable ["b.md", "A.md"] [] "name" true
    [("b.md", 5), ("A.md", 7)]

/-- Counterexample to C4 as stated: sorting by size ascending with two
files of equal size, the output keeps the input order b.md before A.md
even though the case-insensitive name order puts a.md strictly first,
so a tie under the sort key is not broken by case-insensitive
filename. -/
theorem build_file_list_size_tie_not_name_broken :
    browser._build_file_list ["b.md", "A.md"] [] "size" true
        [("b.md", 10), ("A.md", 10)]
      = [("b.md", 10, false), ("A.md", 10, false)] ∧
    browser.pyLower "A.md" < browser.pyLower "b.md" := by
  refine ⟨rfl, ?_⟩
  exact String.lt_iff_toList_lt.mpr (List.Lex.rel (by decide))

namespace browser

/-- Keys dispatched by the file_picker loop.
Modelled from the spec: the key codes KEY_UP, KEY_DOWN, KEY_ENTER and
KEY_ESC come from the keycodes module, which is not among the sources;
they are distinct positive firmware scan codes, so they are modelled as
an enumeration, with `other` standing for any other positive key
code. -/
inductive Key where
  | up
  | down
  | enter
  | esc
  | other
deriving Repr, DecidableEq

/-- The view-model state the file_picker key handlers read and write:
the built items list and the selection index. -/
structure PickerState where
  items : List FileItem
  selected : Nat
deriving Repr, DecidableEq

/-- One loop iteration's input: a key poll result or a keyboard
interrupt (the `except KeyboardInterrupt` around the loop). -/
inductive PickerEvent where
  | key (k : Key)
  | interrupt
deriving Repr, DecidableEq

/-- Outcome of one dispatch: keep looping with a new state, or return
from file_picker with a value. -/
inductive StepResult where
  | continueLoop (s : PickerState)
  | finished (r : Option String)
deriving Repr, DecidableEq

/-- Embedding of the `if key > 0` dispatch chain of the file_picker
loop in browser.py.  Python's `items[selected][0]` is modelled with
optional indexing; the claims about it carry the in-range hypothesis
under which the two agree. -/
def picker_key_step (s : PickerState) (k : Key) : StepResult :=
  match k with
  | .up =>
    if s.selected > 0 then .continueLoop ⟨s.items, s.selected - 1⟩
    else .continueLoop s
  | .down =>
    if s.items ≠ [] ∧ s.selected < s.items.length - 1 then
      .continueLoop ⟨s.items, s.selected + 1⟩
    else .continueLoop s
  | .enter =>
    if s.items ≠ [] then .finished ((s.items[s.selected]?).map Prod.fst)
    else .continueLoop s
  | .esc => .finished none
  | .other => .continueLoop s

/-- Embedding of one file_picker loop iteration on a key or interrupt
event: `except KeyboardInterrupt: return None`. -/
def picker_step (s : PickerState) (e : PickerEvent) : StepResult :=
  match e with
  | .key k => picker_key_step s k
  | .interrupt => .finished none

/-- Embedding of the relocation loops of `_header_tap`, `_star_tap`
and `_do_menu`: the index of the first item named f, if any
(`for i in range(len(items)): if items[i][0] == sel_fname: ...`). -/
def find_name (l : List FileItem) (f : String) : Option Nat :=
  match l with
  | [] => none
  | it :: rest =>
    if it.1 = f then some 0 else (find_name rest f).map (· + 1)

/-- Relocation after a rebuild: `selected = 0`, then the scan loop
guarded by `if sel_fname:` (Python truthiness: None and the empty
string both skip the loop). -/
def relocate_sel (newItems : List FileItem) (sel_fname : Option String) :
    Nat :=
  match sel_fname with
  | none => 0
  | some f => if f = "" then 0 else (find_name newItems f).getD 0

/-- Embedding of `_header_tap` from browser.py.  The external
`file_prefs.cycle_sort` call only mutates the preference store; the
items list rebuilt from the new settings is the parameter `newItems`.
`sel_fname = items[selected][0] if items else None`. -/
def _header_tap (items : List FileItem) (selected : Nat)
    (newItems : List FileItem) : List FileItem × Nat :=
  let sel_fname : Option String :=
    if items.isEmpty then none else (items[selected]?).map Prod.fst
  (newItems, relocate_sel newItems sel_fname)

/-- Embedding of `_star_tap` from browser.py: out-of-range row returns
False and changes nothing (row_idx < 0 cannot occur for a Nat row
index computed from a tap below the list top); otherwise toggle the
favorite (an external preference write reflected in `newItems`),
rebuild, and relocate exactly as `_header_tap` does. -/
def _star_tap (items : List FileItem) (selected row_idx : Nat)
    (newItems : List FileItem) : Bool × (List FileItem × Nat) :=
  if row_idx ≥ items.length then (false, (items, selected))
  else
    let sel_fname : Option String :=
      if items.isEmpty then none else (items[selected]?).map Prod.fst
    (true, (newItems, relocate_sel newItems sel_fname))

/-- Embedding of the `result == 'reload'` branch of `_do_menu` from
browser.py: rebuild, clamp `selected` with
`if selected >= len(items): selected = max(0, len(items) - 1)` (Nat
subtraction is that max), then re-locate the previously selected
filename, keeping the clamped index when it is absent. -/
def _do_menu_reload (items : List FileItem) (selected : Nat)
    (newItems : List FileItem) : List FileItem × Nat :=
  let sel_file : Option String :=
    if items.isEmpty then none else (items[selected]?).map Prod.fst
  let selected1 :=
    if selected ≥ newItems.length then newItems.length - 1 else selected
  let selected2 :=
    match sel_file with
    | none => selected1
    | some f =>
      if f = "" then selected1
      else
        match find_name newItems f with
        | some i => i
        | none => selected1
  (newItems, selected2)

/-- The selection-index invariant of the file_picker loop. -/
def SelInv (items : List FileItem) (selected : Nat) : Prop :=
  (items = [] → selected = 0) ∧ (items ≠ [] → selected < items.length)

instance (items : List FileItem) (selected : Nat) :
    Decidable (SelInv items selected) := by
  unfold SelInv
  infer_instance

theorem find_name_lt {l : List FileItem} {f : String} {i : Nat}
    (h : find_name l f = some i) : i < l.length := by
  induction l generalizing i with
  | nil => simp [find_name] at h
  | cons it rest ih =>
    rw [find_name] at h
    by_cases hit : it.1 = f
    · rw [if_pos hit] at h
      cases h
      simp
    · rw [if_neg hit] at h
      match hrec : find_name rest f with
      | none => rw [hrec] at h; cases h
      | some j =>
        rw [hrec] at h
        cases h
        have := ih hrec
        simp
        omega

theorem find_name_names {l : List FileItem} {f : String} {i : Nat}
    (h : find_name l f = some i) : (l[i]?).map Prod.fst = some f := by
  induction l generalizing i with
  | nil => simp [find_name] at h
  | cons it rest ih =>
    rw [find_name] at h
    by_cases hit : it.1 = f
    · rw [if_pos hit] at h
      cases h
      simp [hit]
    · rw [if_neg hit] at h
      match hrec : find_name rest f with
      | none => rw [hrec] at h; cases h
      | some j =>
        rw [hrec] at h
        cases h
        simpa using ih hrec

theorem find_name_of_mem {l : List FileItem} {f : String}
    (h : f ∈ l.map Prod.fst) : ∃ i, find_name l f = some i := by
  induction l with
  | nil => simp at h
  | cons it rest ih =>
    rw [find_name]
    by_cases hit : it.1 = f
    · exact ⟨0, by rw [if_pos hit]⟩
    · rw [if_neg hit]
      simp only [List.map_cons, List.mem_cons] at h
      rcases h with h | h
      · exact absurd h.symm hit
      · obtain ⟨i, hi⟩ := ih h
        exact ⟨i + 1, by rw [hi]; rfl⟩

theorem relocate_sel_inv (newItems : List FileItem)
    (sf : Option String) : SelInv newItems (relocate_sel newItems sf) := by
  have h0 : SelInv newItems 0 := by
    constructor
    · intro _; rfl
    · intro hne
      exact List.length_pos.mpr hne
  match sf with
  | none => exact h0
  | some f =>
    unfold relocate_sel
    dsimp only
    by_cases hf : f = ""
    · rw [if_pos hf]; exact h0
    · rw [if_neg hf]
      match hrec : find_name newItems f with
      | none => exact h0
      | some i =>
        have hi := find_name_lt hrec
        constructor
        · intro he
          subst he
          simp at hi
        · intro _
          simpa using hi

end browser

/-- C7: with the selection in range (so the item list is non-empty),
the Enter key terminates file_picker returning the filename of the
currently selected item, the Escape key and a keyboard interrupt
terminate it returning none, and the remaining keys (up, down, any
other key code) never terminate the loop. -/
theorem file_picker_terminal_events (s : browser.PickerState)
    (h : s.selected < s.items.length) :
    browser.picker_step s (.key .enter)
      = .finished (some (s.items.get ⟨s.selected, h⟩).1) ∧
    browser.picker_step s (.key .esc) = .finished none ∧
    browser.picker_step s .interrupt = .finished none ∧
    (∃ t, browser.picker_step s (.key .up) = .continueLoop t) ∧
    (∃ t, browser.picker_step s (.key .down) = .continueLoop t) ∧
    (∃ t, browser.picker_step s (.key .other) = .continueLoop t) := by
  refine ⟨?_, rfl, rfl, ?_, ?_, ⟨s, rfl⟩⟩
  · show browser.picker_key_step s .enter = _
    unfold browser.picker_key_step
    dsimp only
    have hne : s.items ≠ [] :=
      List.ne_nil_of_length_pos (Nat.lt_of_le_of_lt (Nat.zero_le _) h)
    rw [if_pos hne, List.getElem?_eq_getElem h]
    rfl
  · by_cases hc : s.selected > 0
    · refine ⟨⟨s.items, s.selected - 1⟩, ?_⟩
      show browser.picker_key_step s .up = _
      unfold browser.picker_key_step
      dsimp only
      rw [if_pos hc]
    · refine ⟨s, ?_⟩
      show browser.picker_key_step s .up = _
      unfold browser.picker_key_step
      dsimp only
      rw [if_neg hc]
  · by_cases hc : s.items ≠ [] ∧ s.selected < s.items.length - 1
    · refine ⟨⟨s.items, s.selected + 1⟩, ?_⟩
      show browser.picker_key_step s .down = _
      unfold browser.picker_key_step
      dsimp only
      rw [if_pos hc]
    · refine ⟨s, ?_⟩
      show browser.picker_key_step s .down = _
      unfold browser.picker_key_step
      dsimp only
      rw [if_neg hc]

/-- Witness for C7 at a concrete one-item picker state. -/
theorem file_picker_terminal_events_witness :
    (({ items := [("a.md", 1, false)], selected := 0 } :
        browser.PickerState).selected
      < ({ items := [("a.md", 1, false)], selected := 0 } :
        browser.PickerState).items.length) ∧
    (browser.picker_step
        { items := [("a.md", 1, false)], selected := 0 } (.key .enter)
        = .finished (some "a.md") ∧
     browser.picker_step
        { items := [("a.md", 1, false)], selected := 0 } (.key .esc)
        = .finished none ∧
     browser.picker_step
        { items := [("a.md", 1, false)], selected := 0 } .interrupt
        = .finished none ∧
     (∃ t, browser.picker_step
        { items := [("a.md", 1, false)], selected := 0 } (.key .up)
        = .continueLoop t) ∧
     (∃ t, browser.picker_step
        { items := [("a.md", 1, false)], selected := 0 } (.key .down)
        = .continueLoop t) ∧
     (∃ t, browser.picker_step
        { items := [("a.md", 1, false)], selected := 0 } (.key .other)
        = .continueLoop t)) :=
  ⟨by decide,
   file_picker_terminal_events
     { items := [("a.md", 1, false)], selected := 0 } (by decide)⟩

/-- C10: assuming the selection invariant (index in range when the
item list is non-empty, 0 when it is empty), every event handler of
file_picker preserves it: the up and down keys, a header tap re-sort,
a star tap favorite toggle, and a menu action reloading the list
(each rebuild produces an arbitrary `newItems`); moreover a re-sort or
reload re-locates the previously selected filename whenever it is
still present (the reload otherwise keeps the clamped index, the
re-sort falls back to 0, both in range). -/
theorem selection_invariant_preserved
    (items newItems : List browser.FileItem) (selected row_idx : Nat)
    (h : browser.SelInv items selected) :
    browser.SelInv (browser._header_tap items selected newItems).1
      (browser._header_tap items selected newItems).2 ∧
    browser.SelInv (browser._star_tap items selected row_idx newItems).2.1
      (browser._star_tap items selected row_idx newItems).2.2 ∧
    browser.SelInv (browser._do_menu_reload items selected newItems).1
      (browser._do_menu_reload items selected newItems).2 ∧
    (∀ t, browser.picker_step ⟨items, selected⟩ (.key .up)
        = .continueLoop t → browser.SelInv t.items t.selected) ∧
    (∀ t, browser.picker_step ⟨items, selected⟩ (.key .down)
        = .continueLoop t → browser.SelInv t.items t.selected) ∧
    (∀ f, (items[selected]?).map Prod.fst = some f → f ≠ "" →
      f ∈ newItems.map Prod.fst →
      (newItems[(browser._header_tap items selected newItems).2]?).map
          Prod.fst = some f ∧
      (newItems[(browser._do_menu_reload items selected
          newItems).2]?).map Prod.fst = some f) := by
  have hs1 : browser.SelInv newItems
      (if selected ≥ newItems.length then newItems.length - 1
       else selected) := by
    constructor
    · intro he
      subst he
      simp
    · intro hne
      have hp := List.length_pos.mpr hne
      split <;> omega
  refine ⟨?_, ?_, ?_, ?_, ?_, ?_⟩
  · exact browser.relocate_sel_inv newItems _
  · unfold browser._star_tap
    by_cases hr : row_idx ≥ items.length
    · simp only [if_pos hr]
      exact h
    · simp only [if_neg hr]
      exact browser.relocate_sel_inv newItems _
  · unfold browser._do_menu_reload
    dsimp only
    cases hc : (if items.isEmpty then none
        else (items[selected]?).map Prod.fst) with
    | none =>
      exact hs1
    | some f =>
      dsimp only
      by_cases hf : f = ""
      · rw [if_pos hf]
        exact hs1
      · rw [if_neg hf]
        cases hfind : browser.find_name newItems f with
        | none =>
          exact hs1
        | some i =>
          have hi := browser.find_name_lt hfind
          constructor
          · intro he
            subst he
            simp at hi
          · intro _
            exact hi
  · intro t ht
    show browser.SelInv t.items t.selected
    unfold browser.picker_step browser.picker_key_step at ht
    dsimp only at ht
    by_cases hc : selected > 0
    · rw [if_pos hc] at ht
      cases ht
      refine ⟨fun he => absurd (h.1 he) (by omega), fun hne => ?_⟩
      have := h.2 hne
      dsimp only
      omega
    · rw [if_neg hc] at ht
      cases ht
      exact h
  · intro t ht
    show browser.SelInv t.items t.selected
    unfold browser.picker_step browser.picker_key_step at ht
    dsimp only at ht
    by_cases hc : items ≠ [] ∧ selected < items.length - 1
    · rw [if_pos hc] at ht
      cases ht
      refine ⟨fun he => absurd he hc.1, fun _ => ?_⟩
      have := hc.2
      dsimp only
      omega
    · rw [if_neg hc] at ht
      cases ht
      exact h
  · intro f hf hfne hmem
    have hne : ¬ items = [] := by
      intro he
      subst he
      simp at hf
    have hifrw : (if items.isEmpty then none
        else (items[selected]?).map Prod.fst) = some f := by
      rw [if_neg (by simpa using hne)]
      exact hf
    obtain ⟨i, hi⟩ := browser.find_name_of_mem hmem
    have hnames := browser.find_name_names hi
    constructor
    · show (newItems[browser.relocate_sel newItems
          (if items.isEmpty then none
           else (items[selected]?).map Prod.fst)]?).map Prod.fst = some f
      rw [hifrw]
      unfold browser.relocate_sel
      dsimp only
      rw [if_neg hfne, hi]
      exact hnames
    · unfold browser._do_menu_reload
      dsimp only
      rw [hifrw]
      dsimp only
      rw [if_neg hfne, hi]
      exact hnames

/-- Witness for C10 at a concrete one-item picker state. -/
theorem selection_invariant_preserved_witness :
    browser.SelInv [("a.md", 1, false)] 0 ∧
    (browser.SelInv
        (browser._header_tap [("a.md", 1, false)] 0
          [("a.md", 1, false)]).1
        (browser._header_tap [("a.md", 1, false)] 0
          [("a.md", 1, false)]).2 ∧
     browser.SelInv
        (browser._star_tap [("a.md", 1, false)] 0 0
          [("a.md", 1, false)]).2.1
        (browser._star_tap [("a.md", 1, false)] 0 0
          [("a.md", 1, false)]).2.2 ∧
     browser.SelInv
        (browser._do_menu_reload [("a.md", 1, false)] 0
          [("a.md", 1, false)]).1
        (browser._do_menu_reload [("a.md", 1, false)] 0
          [("a.md", 1, false)]).2 ∧
     (∀ t, browser.picker_step ⟨[("a.md", 1, false)], 0⟩ (.key .up)
        = .continueLoop t → browser.SelInv t.items t.selected) ∧
     (∀ t, browser.picker_step ⟨[("a.md", 1, false)], 0⟩ (.key .down)
        = .continueLoop t → browser.SelInv t.items t.selected) ∧
     (∀ f, (([("a.md", 1, false)] :
          List browser.FileItem)[(0 : Nat)]?).map Prod.fst = some f →
        f ≠ "" →
        f ∈ ([("a.md", 1, false)] : List browser.FileItem).map Prod.fst →
        ((([("a.md", 1, false)] : List browser.FileItem))[
            (browser._header_tap [("a.md", 1, false)] 0
              [("a.md", 1, false)]).2]?).map Prod.fst = some f ∧
        ((([("a.md", 1, false)] : List browser.FileItem))[
            (browser._do_menu_reload [("a.md", 1, false)] 0
              [("a.md", 1, false)]).2]?).map Prod.fst = some f)) :=
  ⟨by decide,
   selection_invariant_preserved [("a.md", 1, false)]
     [("a.md", 1, false)] 0 0 (by decide)⟩

namespace main

/-- A Python exception, identity irrelevant here (every handler is a
bare `except`). -/
inductive PyErr where
  | exc
deriving Repr, DecidableEq

/-- Embedding of Python `int(s)`: parse an optionally signed decimal
integer, failure modelling the ValueError raise. -/
def pyInt (s : String) : Option Int := s.toInt?

/-- Embedding of Python `str.strip()`: remove leading and trailing
whitespace. -/
def pyStrip (s : String) : String := s.trim

/-- Embedding of `save_last_file` from main.py: the outcome of the
underlying open / write is the parameter; a raised write error is
swallowed by `except: pass`, so the function itself returns normally
either way (its Python return value is None). -/
def save_last_file (writeOutcome : Except PyErr Unit) :
    Except PyErr Unit :=
  match writeOutcome with
  | .ok _ => .ok ()
  | .error _ => .ok ()

/-- Embedding of `load_last_file` from main.py: the outcome of reading
the .bookmark file is the parameter.  On a read that raises, and on an
`int(lines[1])` that raises, the bare `except` falls through to
`return None, 0`; `split` always yields at least one line, the
unreachable empty-split case also falling through to `return None, 0`
in Python. -/
def load_last_file (readOutcome : Except PyErr String) :
    Except PyErr (Option String × Int) :=
  match readOutcome with
  | .error _ => .ok (none, 0)
  | .ok content =>
    match (pyStrip content).splitOn "\n" with
    | [] => .ok (none, 0)
    | [l0] => .ok (some l0, 0)
    | l0 :: l1 :: _ =>
      match pyInt l1 with
      | some v => .ok (some l0, v)
      | none => .ok (none, 0)

end main

/-- C8: file reads and writes degrade silently to defaults: a raised
read of .bookmark makes `load_last_file` return the default (None, 0)
instead of propagating, `load_last_file` never propagates an error for
any read outcome (the split always yields at least one line, the
claimed under-one-line case being unreachable and covered by the same
default), and `save_last_file` returns normally for every write
outcome, including a failed write. -/
theorem io_failures_swallowed (r : Except main.PyErr String)
    (w : Except main.PyErr Unit) (e : main.PyErr) :
    main.load_last_file (.error e) = .ok (none, 0) ∧
    (∃ v, main.load_last_file r = .ok v) ∧
    (∀ content : String,
      (main.pyStrip content).splitOn "\n" = [] →
        main.load_last_file (.ok content) = .ok (none, 0)) ∧
    main.save_last_file w = .ok () := by
  refine ⟨rfl, ?_, ?_, ?_⟩
  · cases r with
    | error e2 => exact ⟨(none, 0), rfl⟩
    | ok content =>
      unfold main.load_last_file
      dsimp only
      cases hs : (main.pyStrip content).splitOn "\n" with
      | nil => exact ⟨(none, 0), rfl⟩
      | cons l0 rest =>
        cases rest with
        | nil => exact ⟨(some l0, 0), rfl⟩
        | cons l1 rest2 =>
          dsimp only
          cases hp : main.pyInt l1 with
          | some v => exact ⟨(some l0, v), rfl⟩
          | none => exact ⟨(none, 0), rfl⟩
  · intro content hsplit
    unfold main.load_last_file
    dsimp only
    rw [hsplit]
  · cases w with
    | ok u => rfl
    | error e2 => rfl
